import Mathlib

/-!
# Verification of the enum-store core (`enumstorebase.cpp`)

Shallow embedding of the generation-reclaimed, deduplicating value store
backing attribute/enum columns: the buffer growth policy
(`EnumBufferType::calcArraysToAlloc`), hold-list trimming, the unique-store
deduplication discipline, compaction preparation (`preCompact`),
two-pass bulk load (`deserialize0` / `deserialize`) and refcount fix-up
(`fixupRefCounts`), together with address-space accounting.

Machine integers are modelled as `Nat`; `size_t` subtraction only occurs
where the code's own assertions guarantee no underflow, and the
`uint64_t * 1.5` (double) growth step is modelled as `3 * n / 2`, which is
exact for every size below `2^52`.
-/

namespace EnumStore

/-! ## Buffer growth policy (`EnumStoreBase::EnumBufferType`)

`calcArraysToAlloc` (enumstorebase.cpp lines 38-69) computes how many
arrays the new buffer should hold.  The fields mirror the C++ members used
there: `_minSizeNeeded`, `_deadElems`, `_activeUsedElems`, `_lastUsedElems`
(a nullable pointer, hence `Option`), `_arraySize`, `_maxArrays`; the
reserved-element headroom depends on the buffer id.
-/

structure EnumBufferType where
  arraySize : Nat
  maxArrays : Nat
  minSizeNeeded : Nat
  deadElems : Nat
  activeUsedElems : Nat
  lastUsedElems : Option Nat
  /-- Modelled from the spec: `BufferTypeBase::getReservedElements` is not in
  the sources; the spec calls it `reservedHeadroom`, a per-buffer-id reserved
  element count.  Kept abstract as a function of the buffer id. -/
  reservedOf : Nat → Nat

/-- Modelled from the spec: `BufferTypeBase::alignBufferSize` is not in the
sources; the spec says the target size is "rounded up to an alignment unit",
and the code asserts `newSize % _arraySize == 0` right after the call, so the
unit is the array size. -/
def alignBufferSize (arraySize sz : Nat) : Nat :=
  ((sz + arraySize - 1) / arraySize) * arraySize

/-- Total used elements: `_activeUsedElems` plus `*_lastUsedElems` when the
pointer is non-null (lines 44-47). -/
def EnumBufferType.usedElems (t : EnumBufferType) : Nat :=
  t.activeUsedElems + t.lastUsedElems.getD 0

/-- The first candidate size (lines 43-56): `sizeNeeded` is raised to
`_minSizeNeeded`, the live part `usedElems - _deadElems` is added, the 1.5
growth ratio is applied only when `usedElems != 0`, then the reserved
headroom is added and the result aligned. -/
def EnumBufferType.firstSize (t : EnumBufferType) (bufferId sizeNeeded : Nat) : Nat :=
  let sn := max sizeNeeded t.minSizeNeeded
  let base := t.usedElems - t.deadElems + sn
  let grown := if t.usedElems ≠ 0 then 3 * base / 2 else base
  alignBufferSize t.arraySize (grown + t.reservedOf bufferId)

/-- The retry size (lines 61-62): just enough plus a fixed 1000000-element
slack, no growth ratio, aligned. -/
def EnumBufferType.retrySize (t : EnumBufferType) (bufferId sizeNeeded : Nat) : Nat :=
  let sn := max sizeNeeded t.minSizeNeeded
  alignBufferSize t.arraySize (t.usedElems - t.deadElems + sn + t.reservedOf bufferId + 1000000)

/-- `EnumStoreBase::EnumBufferType::calcArraysToAlloc` (lines 38-69),
statement by statement.  `Except.error (newSize, maxSize)` models the
`failNewSize` throw (lines 173-177): an `IllegalStateException` carrying
the minimum new size and the maximum size. -/
def EnumBufferType.calcArraysToAlloc (t : EnumBufferType) (bufferId sizeNeeded0 : Nat) :
    Except (Nat × Nat) Nat :=
  let reservedElements := t.reservedOf bufferId
  let sizeNeeded := max sizeNeeded0 t.minSizeNeeded
  let usedElems := t.activeUsedElems + t.lastUsedElems.getD 0
  let maxSize := t.maxArrays * t.arraySize
  let newSize0 := usedElems - t.deadElems + sizeNeeded
  let newSize1 := if usedElems ≠ 0 then 3 * newSize0 / 2 else newSize0
  let newSize := alignBufferSize t.arraySize (newSize1 + reservedElements)
  if newSize ≤ maxSize then
    .ok (newSize / t.arraySize)
  else
    let newSize2 :=
      alignBufferSize t.arraySize
        (usedElems - t.deadElems + sizeNeeded + reservedElements + 1000000)
    if newSize2 ≤ maxSize then
      .ok t.maxArrays
    else
      .error (newSize2, maxSize)

/-- The growth target exactly as the claim words it: `max(minSizeNeeded,
(liveElements − deadElements + sizeNeeded) × growthFactor) + reservedHeadroom`,
rounded up to an alignment unit, with growthFactor = 1.5.  Written from the
spec sentence for comparison with `EnumBufferType.firstSize`. -/
def EnumBufferType.specTargetSize (t : EnumBufferType) (bufferId sizeNeeded : Nat) : Nat :=
  alignBufferSize t.arraySize
    (max t.minSizeNeeded (3 * (t.usedElems - t.deadElems + sizeNeeded) / 2) + t.reservedOf bufferId)

/-! ## Hold lists and trimming (`EnumStoreBase::trimHoldLists`, lines 134-140)

The facade delegates to `_enumDict->trim_hold_lists(firstUsed)` and
`_store.trimHoldLists(firstUsed)` with the comment "remove generations in
the range [0, firstUsed>".  A hold-list entry is `(resourceHandle,
retiredAtGeneration)` (spec §3).
-/

/-- Modelled from the spec: the hold-list scan loops (inside the generation
holder and the btree node allocator) are not in the sources; per §4.2,
`trimHoldLists(firstUsed)` "scans each HoldList and physically frees every
entry whose `retiredAtGeneration < firstUsed`".  Returns
(freed entries, remaining hold list). -/
def trimHoldList (firstUsed : Nat) : List (Nat × Nat) → List (Nat × Nat) × List (Nat × Nat)
  | [] => ([], [])
  | e :: es =>
    let r := trimHoldList firstUsed es
    if e.2 < firstUsed then (e :: r.1, r.2) else (r.1, e :: r.2)

/-- The two hold lists the facade owns: the dictionary's and the data
store's. -/
structure EnumStoreHoldState where
  dictHold : List (Nat × Nat)
  storeHold : List (Nat × Nat)

/-- `EnumStoreBase::trimHoldLists` (lines 134-140): trims the dictionary
hold list, then the data store hold list.  Returns the freed entries of
each list together with the new state. -/
def EnumStoreHoldState.trimHoldLists (s : EnumStoreHoldState) (firstUsed : Nat) :
    (List (Nat × Nat) × List (Nat × Nat)) × EnumStoreHoldState :=
  let d := trimHoldList firstUsed s.dictHold
  let t := trimHoldList firstUsed s.storeHold
  ((d.1, t.1), ⟨d.2, t.2⟩)

/-! ## Unique store deduplication (`search::datastore::UniqueStore`)

Only the class declaration of `UniqueStore` is among the sources; the
bodies of `add` / `remove` are modelled from spec §4.4.  Values are
modelled as naturals, the comparator as equality on them; an entry is the
stored value plus a refcount, addressed by its `EntryRef`.
-/

structure UEntry where
  ref : Nat
  value : Nat
  refCount : Nat
deriving DecidableEq

structure UniqueStoreModel where
  entries : List UEntry
  nextRef : Nat
deriving DecidableEq

def UniqueStoreModel.emptyStore : UniqueStoreModel := ⟨[], 0⟩

/-- First entry holding the given value (the Dictionary lookup by
comparator). -/
def findValue (l : List UEntry) (v : Nat) : Option UEntry :=
  l.find? (fun e => e.value == v)

/-- Refcount associated with a value: the refcount of its dictionary entry,
0 when the value is absent. -/
def rcOf (l : List UEntry) (v : Nat) : Nat :=
  ((findValue l v).map UEntry.refCount).getD 0

/-- Increment the refcount of the entry addressed by `r`. -/
def bumpRefCount (r : Nat) (l : List UEntry) : List UEntry :=
  l.map (fun e => if e.ref = r then { e with refCount := e.refCount + 1 } else e)

/-- Modelled from the spec: `UniqueStore::add`'s body is not in the sources
(only its declaration); per §4.4, `add(value)` "looks up `value` in the
Dictionary; if found, increments the associated refcount and returns
`isNew=false`; otherwise allocates storage via BufferArena, inserts into
the Dictionary, sets refcount=1, returns `isNew=true`".  Returns
(new store, AddResult.ref, AddResult.isNew). -/
def UniqueStoreModel.add (s : UniqueStoreModel) (v : Nat) : UniqueStoreModel × Nat × Bool :=
  match findValue s.entries v with
  | some e => ({ s with entries := bumpRefCount e.ref s.entries }, e.ref, false)
  | none => (⟨s.entries ++ [⟨s.nextRef, v, 1⟩], s.nextRef + 1⟩, s.nextRef, true)

/-- Modelled from the spec: `UniqueStore::remove`'s body is not in the
sources; per §4.4, `remove(ref)` "decrements refcount; at zero, removes the
Dictionary entry and frees the buffer slot". -/
def UniqueStoreModel.remove (s : UniqueStoreModel) (r : Nat) : UniqueStoreModel :=
  ⟨(s.entries.map
      (fun e => if e.ref = r then { e with refCount := e.refCount - 1 } else e)).filter
      (fun e => !(e.refCount == 0)),
   s.nextRef⟩

/-- Value stored under an `EntryRef`, if any. -/
def UniqueStoreModel.valueOfRef (s : UniqueStoreModel) (r : Nat) : Option Nat :=
  (s.entries.find? (fun e => e.ref == r)).map UEntry.value

/-- An interleaving step: a duplicate-aware `add` of a value, or a `remove`
of an `EntryRef`. -/
inductive UOp where
  | add (v : Nat)
  | remove (r : Nat)
deriving DecidableEq

/-- Run a sequence of operations; alongside the final store, log the value
that each `remove` resolved its ref to (empty contribution for an invalid
ref), so that per-value remove counts are well defined. -/
def runOps : UniqueStoreModel → List UOp → UniqueStoreModel × List Nat
  | s, [] => (s, [])
  | s, .add v :: ops => runOps (s.add v).1 ops
  | s, .remove r :: ops =>
    let rest := runOps (s.remove r) ops
    (rest.1, (s.valueOfRef r).toList ++ rest.2)

/-- Caller-contract validity (spec §7: removing a ref with refcount already
zero is caller misuse): every `remove` targets a live ref. -/
def validOps : UniqueStoreModel → List UOp → Bool
  | _, [] => true
  | s, .add v :: ops => validOps (s.add v).1 ops
  | s, .remove r :: ops => (s.valueOfRef r).isSome && validOps (s.remove r) ops

/-- Number of `add`s of a given value in an operation sequence. -/
def countAdds (v : Nat) : List UOp → Nat
  | [] => 0
  | .add w :: ops => (if w = v then 1 else 0) + countAdds v ops
  | .remove _ :: ops => countAdds v ops

/-- Store well-formedness: entries have pairwise distinct refs and values,
live refcounts, and refs below the allocation cursor. -/
def GoodStore (s : UniqueStoreModel) : Prop :=
  s.entries.Pairwise (fun a b => a.ref ≠ b.ref ∧ a.value ≠ b.value) ∧
  ∀ e ∈ s.entries, 1 ≤ e.refCount ∧ e.ref < s.nextRef

/-! ## Data store buffers, `preCompact` and address-space accounting

`EnumStoreBase::getBufferIndex` (lines 103-112), `preCompact`
(lines 142-153) and `getAddressSpaceUsage` (lines 120-125) read buffer
states from the data store.  A buffer header (spec §3) carries its state
(`FREE`/`ACTIVE`/`HOLD`), its used element count (`BufferState::size()`)
and its dead element count (`BufferState::getDeadElems()`).
-/

inductive BufState where
  | free
  | active
  | hold
deriving DecidableEq

structure BufferHeader where
  state : BufState
  usedElems : Nat
  deadElems : Nat
deriving DecidableEq

structure DataStoreModel where
  buffers : List BufferHeader
  activeBufferId : Nat
deriving DecidableEq

/-- The buffer state the active buffer id resolves to. -/
def DataStoreModel.activeBuffer (s : DataStoreModel) : BufferHeader :=
  s.buffers.getD s.activeBufferId ⟨.free, 0, 0⟩

/-- The linear scan of `EnumStoreBase::getBufferIndex` (lines 103-112),
indices counted from `i`. -/
def getBufferIndexAux (status : BufState) : List BufferHeader → Nat → Option Nat
  | [], _ => none
  | b :: bs, i => if b.state = status then some i else getBufferIndexAux status bs (i + 1)

/-- `EnumStoreBase::getBufferIndex` (lines 103-112): first buffer id whose
state matches, else the sentinel `Index::numBuffers()` (passed in as
`numBuffers`). -/
def getBufferIndex (numBuffers : Nat) (s : DataStoreModel) (status : BufState) : Nat :=
  (getBufferIndexAux status s.buffers 0).getD numBuffers

/-- Modelled from the spec: `DataStoreBase::startCompact` is not in the
sources; per §4.1, `startCompact` begins "a compaction epoch for one entry
type; during this window new allocations go to a fresh buffer while old
buffers are marked read-only and scheduled onto the HoldList".  Returns the
ids of the buffers scheduled for hold and marks them `HOLD`; indices
counted from `i`. -/
def startCompactAux : List BufferHeader → Nat → List Nat × List BufferHeader
  | [], _ => ([], [])
  | b :: bs, i =>
    let r := startCompactAux bs (i + 1)
    if b.state = .active then (i :: r.1, { b with state := .hold } :: r.2)
    else (r.1, b :: r.2)

def DataStoreModel.startCompact (s : DataStoreModel) : List Nat × DataStoreModel :=
  let r := startCompactAux s.buffers 0
  (r.1, { s with buffers := r.2 })

/-- The facade state `preCompact` touches: the data store, the
`EnumBufferType`'s `(sizeNeeded, dead)` sizing pair set through
`setSizeNeededAndDead`, and `_toHoldBuffers`. -/
structure EnumStoreState where
  store : DataStoreModel
  typeSizeNeeded : Nat
  typeDeadElems : Nat
  toHoldBuffers : List Nat
deriving DecidableEq

/-- `EnumStoreBase::preCompact` (lines 142-153). -/
def EnumStoreState.preCompact (numBuffers : Nat) (es : EnumStoreState) (bytesNeeded : Nat) :
    Bool × EnumStoreState :=
  if getBufferIndex numBuffers es.store .free = numBuffers then
    (false, es)
  else
    let activeBuf := es.store.activeBuffer
    let r := es.store.startCompact
    (true,
     { es with
       typeSizeNeeded := bytesNeeded
       typeDeadElems := activeBuf.deadElems
       store := r.2
       toHoldBuffers := r.1 })

/-- `EnumStoreBase::getAddressSpaceUsage` (lines 120-125):
`AddressSpace(activeState.size(), activeState.getDeadElems(),
DataStoreType::RefType::offsetSize())`, the offset size passed in as
`offsetSize`. -/
def DataStoreModel.getAddressSpaceUsage (s : DataStoreModel) (offsetSize : Nat) :
    Nat × Nat × Nat :=
  (s.activeBuffer.usedElems, s.activeBuffer.deadElems, offsetSize)

/-- Store-wide used elements, as the claim's reading "usedElements of the
store" would have it: summed over all buffers. -/
def DataStoreModel.storeUsedElems (s : DataStoreModel) : Nat :=
  (s.buffers.map BufferHeader.usedElems).sum

/-- Store-wide dead elements, summed over all buffers. -/
def DataStoreModel.storeDeadElems (s : DataStoreModel) : Nat :=
  (s.buffers.map BufferHeader.deadElems).sum

/-! ## Two-pass bulk load (`deserialize0` / `deserialize`, lines 179-227)

`deserialize0` walks the serialized bytes twice with the per-record virtual
`deserialize` overloads (implemented by subclasses, not among the sources,
so kept abstract): the first overload accumulates the required buffer
space into `initSpace`, the second produces one `Index` per record.  Each
overload returns the number of bytes consumed, negative on parse failure.
A parse position is modelled by the byte offset from `src` together with
the bytes left. -/

structure RecordParser where
  /-- First-pass overload `deserialize(p, left, initSpace)`: bytes consumed
  (negative = error) and the amount added to `initSpace`. -/
  parseSize : Nat → Nat → Int × Nat
  /-- Second-pass overload `deserialize(p, left, idx)`: bytes consumed
  (negative = error) and the parsed index. -/
  parseIdx : Nat → Nat → Int × Nat

/-- The (offset, left) pairs at which the per-record parser is invoked,
following the first overload's consumed sizes; `fuel` bounds the loop (the
C++ `while (left > 0)` loop, which terminates because every successful
parse consumes at least one byte). -/
def records (P : RecordParser) : Nat → Nat → Nat → List (Nat × Nat)
  | 0, _, _ => []
  | fuel + 1, pos, left =>
    if left = 0 then []
    else
      let r := P.parseSize pos left
      if r.1 < 0 then []
      else (pos, left) :: records P fuel (pos + r.1.toNat) (left - r.1.toNat)

/-- First loop of `deserialize0` (lines 187-193): accumulate `initSpace`;
`none` models fuel exhaustion (a parser that stops consuming makes the C++
loop spin forever). -/
def pass1 (P : RecordParser) : Nat → Nat → Nat → Nat → Option (Except Int Nat)
  | 0, _, left, space => if left = 0 then some (.ok space) else none
  | fuel + 1, pos, left, space =>
    if left = 0 then some (.ok space)
    else
      let r := P.parseSize pos left
      if r.1 < 0 then some (.error r.1)
      else pass1 P fuel (pos + r.1.toNat) (left - r.1.toNat) (space + r.2)

/-- Second loop of `deserialize0` (lines 197-205): collect the index
vector in parse order. -/
def pass2 (P : RecordParser) : Nat → Nat → Nat → Option (Except Int (List Nat))
  | 0, _, left => if left = 0 then some (.ok []) else none
  | fuel + 1, pos, left =>
    if left = 0 then some (.ok [])
    else
      let r := P.parseIdx pos left
      if r.1 < 0 then some (.error r.1)
      else (pass2 P fuel (pos + r.1.toNat) (left - r.1.toNat)).map
        (fun e => e.map (fun l => r.2 :: l))

/-- Outcome of `EnumStoreBase::deserialize0`: error in the first pass
(before the store reset), error in the second pass (after the store was
reset to `resetSpace`), or success with the reset space, the index vector
and the returned byte count `available - left`. -/
inductive Deser0Result where
  | err1 (sz : Int)
  | err2 (sz : Int) (resetSpace : Nat)
  | ok (resetSpace : Nat) (idx : List Nat) (ret : Nat)
deriving DecidableEq

/-- `EnumStoreBase::deserialize0` (lines 179-207): first pass from
`initSpace = Index::align(1)` (passed in as `initAlign`), then
`reset(initSpace)`, then the second pass from the start of the same
bytes. -/
def deserialize0 (P : RecordParser) (initAlign available : Nat) : Option Deser0Result :=
  match pass1 P available 0 available initAlign with
  | none => none
  | some (.error sz) => some (.err1 sz)
  | some (.ok space) =>
    match pass2 P available 0 available with
    | none => none
    | some (.error sz) => some (.err2 sz space)
    | some (.ok idx) => some (.ok space idx available)

/-- `Tree::Builder` insertion of the index vector in order followed by
`tree.assign(builder)` (lines 219-224): the tree's in-order contents
become the index vector. -/
def buildTree (idx : List Nat) : List Nat := idx

/-- `EnumStoreBase::deserialize` (lines 210-227): run `deserialize0`; on a
non-negative size build the tree from the index vector, otherwise leave
the tree untouched.  Returns (returned size, tree after the call). -/
def deserialize (P : RecordParser) (initAlign available : Nat) (tree : List Nat) :
    Option (Int × List Nat) :=
  match deserialize0 P initAlign available with
  | none => none
  | some (.err1 sz) => some (sz, tree)
  | some (.err2 sz _) => some (sz, tree)
  | some (.ok _ idx ret) => some ((ret : Int), buildTree idx)

/-! ## Refcount fix-up (`fixupRefCounts`, lines 230-245)

The tree is its in-order key sequence; the historical refcount vector is a
list of counts.  `assert` failures are modelled as `none`; a successful
run returns the `(key, count)` pairs passed to `fixupRefCount` in order,
and whether the `freeUnusedEnums(false)` cleanup pass ran. -/

/-- The `for` loop of `fixupRefCounts` (lines 239-242): one history entry
per iteration, asserting `ti.valid()` before each `fixupRefCount`. -/
def fixupLoop : List Nat → List Nat → Option (List (Nat × Nat))
  | [], _ => some []
  | _ :: _, [] => none
  | h :: hs, k :: ks => (fixupLoop hs ks).map (fun ps => (k, h) :: ps)

/-- `EnumStoreBase::fixupRefCounts` (lines 230-245): early return on an
empty history, else the loop, then the final `assert(!ti.valid())` (the
iterator has advanced `hist.length` times), then `freeUnusedEnums(false)`. -/
def fixupRefCounts (hist tree : List Nat) : Option (List (Nat × Nat) × Bool) :=
  if hist.isEmpty then some ([], false)
  else
    match fixupLoop hist tree with
    | none => none
    | some ps => if tree.length ≤ hist.length then some (ps, true) else none

/-! ## Named hypotheses on the abstract per-record parser -/

/-- A per-record parser that always makes progress and never fails: every
parse of a non-empty remainder consumes between 1 and `left` bytes. -/
def Progressive (P : RecordParser) : Prop :=
  ∀ pos left, 0 < left →
    0 < (P.parseSize pos left).1 ∧ (P.parseSize pos left).1 ≤ (left : Int)

/-- Both per-record overloads consume the same number of bytes at the same
position, so the two passes visit the same records. -/
def SameSizes (P : RecordParser) : Prop :=
  ∀ pos left, (P.parseIdx pos left).1 = (P.parseSize pos left).1

/-! ## Concrete stores and parsers used in counterexamples and witnesses -/

deriving instance DecidableEq for Except

/-- Empty buffer type with array size 1 and room for 1000000 arrays. -/
def cexGrow : EnumBufferType := ⟨1, 1000000, 0, 0, 0, none, fun _ => 0⟩

/-- Buffer type whose grown first size (3600000) exceeds the maximum
(3500000) while the retry size (3400000) fits. -/
def cexRetry : EnumBufferType := ⟨1, 3500000, 0, 0, 2400000, none, fun _ => 0⟩

/-- A store with an active buffer (5 used, 1 dead) and a held buffer
(7 used, 2 dead). -/
def dsCex : DataStoreModel := ⟨[⟨.active, 5, 1⟩, ⟨.hold, 7, 2⟩], 0⟩

/-- Facade state over an active buffer (5 used, 2 dead) and a free
buffer. -/
def esCex : EnumStoreState := ⟨⟨[⟨.active, 5, 2⟩, ⟨.free, 0, 0⟩], 0⟩, 0, 0, []⟩

/-- A parser that consumes one byte per record, adds 2 to the needed space
and yields the record offset as its index. -/
def goodParser : RecordParser := ⟨fun _ _ => (1, 2), fun p _ => (1, p)⟩

/-- A parser whose both overloads fail with sentinel -7. -/
def badParser : RecordParser := ⟨fun _ _ => (-7, 3), fun _ _ => (-7, 0)⟩

/-- Scenario A of the spec: `add 5` twice, then remove the first ref. -/
def opsW : List UOp := [.add 5, .add 5, .remove 0]

end EnumStore

/-! # Theorems -/

namespace EnumStore

/-- Helper: mirrors of `trimHoldList`: an entry lands in the freed part iff
it was held and retired before `firstUsed`, and in the kept part iff it was
held and retired at or after `firstUsed`. -/
theorem trimHoldList_mem (firstUsed : Nat) (l : List (Nat × Nat)) (e : Nat × Nat) :
    (e ∈ (trimHoldList firstUsed l).1 ↔ e ∈ l ∧ e.2 < firstUsed) ∧
    (e ∈ (trimHoldList firstUsed l).2 ↔ e ∈ l ∧ firstUsed ≤ e.2) := by
  induction l with
  | nil => simp [trimHoldList]
  | cons a t ih =>
    by_cases ha : a.2 < firstUsed
    · simp only [trimHoldList, if_pos ha, List.mem_cons, ih.1, ih.2]
      constructor
      · constructor
        · rintro (rfl | ⟨h1, h2⟩)
          · exact ⟨Or.inl rfl, ha⟩
          · exact ⟨Or.inr h1, h2⟩
        · rintro ⟨rfl | h1, h2⟩
          · exact Or.inl rfl
          · exact Or.inr ⟨h1, h2⟩
      · constructor
        · rintro ⟨h1, h2⟩
          exact ⟨Or.inr h1, h2⟩
        · rintro ⟨rfl | h1, h2⟩
          · omega
          · exact ⟨h1, h2⟩
    · simp only [trimHoldList, if_neg ha, List.mem_cons, ih.1, ih.2]
      constructor
      · constructor
        · rintro ⟨h1, h2⟩
          exact ⟨Or.inr h1, h2⟩
        · rintro ⟨rfl | h1, h2⟩
          · omega
          · exact ⟨h1, h2⟩
      · constructor
        · rintro (rfl | ⟨h1, h2⟩)
          · exact ⟨Or.inl rfl, by omega⟩
          · exact ⟨Or.inr h1, h2⟩
        · rintro ⟨rfl | h1, h2⟩
          · exact Or.inl rfl
          · exact Or.inr ⟨h1, h2⟩

/-- C3: `trimHoldLists(firstUsed)` physically frees exactly the held
entries whose retirement generation is strictly below `firstUsed`, and
keeps every entry retired at a generation `≥ firstUsed`, in both the
dictionary hold list and the data store hold list. -/
theorem trimHoldLists_frees_exactly (s : EnumStoreHoldState) (firstUsed : Nat)
    (e : Nat × Nat) :
    (e ∈ (s.trimHoldLists firstUsed).1.1 ↔ e ∈ s.dictHold ∧ e.2 < firstUsed) ∧
    (e ∈ (s.trimHoldLists firstUsed).1.2 ↔ e ∈ s.storeHold ∧ e.2 < firstUsed) ∧
    (e ∈ (s.trimHoldLists firstUsed).2.dictHold ↔ e ∈ s.dictHold ∧ firstUsed ≤ e.2) ∧
    (e ∈ (s.trimHoldLists firstUsed).2.storeHold ↔ e ∈ s.storeHold ∧ firstUsed ≤ e.2) :=
  ⟨(trimHoldList_mem firstUsed s.dictHold e).1,
   (trimHoldList_mem firstUsed s.storeHold e).1,
   (trimHoldList_mem firstUsed s.dictHold e).2,
   (trimHoldList_mem firstUsed s.storeHold e).2⟩

/-- C1 counterexample: on an empty buffer type (`usedElems = 0`) with array
size 1 and `sizeNeeded = 4`, the claim's target size is
`max(0, (0 - 0 + 4) * 1.5) = 6` and fits the maximum capacity, yet
`calcArraysToAlloc` returns 4 arrays, not 6: the code applies the growth
factor only when `usedElems != 0` and takes the maximum with
`_minSizeNeeded` before, not after, the multiplication. -/
theorem calcArraysToAlloc_claim_counterexample :
    cexGrow.specTargetSize 1 4 ≤ cexGrow.maxArrays * cexGrow.arraySize ∧
    cexGrow.calcArraysToAlloc 1 4 ≠ .ok (cexGrow.specTargetSize 1 4 / cexGrow.arraySize) := by
  decide

/-- C1 (amended): the target new buffer size is
`(usedElems - deadElems + max(sizeNeeded, minSizeNeeded))`, multiplied by
the fixed growth factor 1.5 only when `usedElems` is non-zero, plus the
reserved headroom, rounded up to an alignment unit
(`EnumBufferType.firstSize`); the returned array count equals this size
divided by the array size whenever it does not exceed the maximum
capacity. -/
theorem calcArraysToAlloc_growth_policy (t : EnumBufferType) (bufferId sizeNeeded : Nat)
    (h : t.firstSize bufferId sizeNeeded ≤ t.maxArrays * t.arraySize) :
    t.calcArraysToAlloc bufferId sizeNeeded =
      .ok (t.firstSize bufferId sizeNeeded / t.arraySize) := by
  simp only [EnumBufferType.calcArraysToAlloc, EnumBufferType.firstSize,
    EnumBufferType.usedElems] at *
  rw [if_pos h]

/-- C1 witness: `cexGrow` allocates 4 arrays for its first size 4. -/
theorem calcArraysToAlloc_growth_policy_witness :
    cexGrow.firstSize 1 4 ≤ cexGrow.maxArrays * cexGrow.arraySize ∧
    cexGrow.calcArraysToAlloc 1 4 = .ok (cexGrow.firstSize 1 4 / cexGrow.arraySize) :=
  ⟨by decide, calcArraysToAlloc_growth_policy cexGrow 1 4 (by decide)⟩

/-- C2: when the first computed size exceeds the hard maximum capacity,
`calcArraysToAlloc` retries exactly once with the just-enough-plus-slack
size: if the retry fits it succeeds (returning the full `_maxArrays`, the
retry size being strictly smaller than the first), and if the retry still
exceeds the maximum it throws via `failNewSize` instead of returning a
size. -/
theorem calcArraysToAlloc_capacity_retry (t : EnumBufferType) (bufferId sizeNeeded : Nat)
    (h : t.maxArrays * t.arraySize < t.firstSize bufferId sizeNeeded) :
    (t.retrySize bufferId sizeNeeded ≤ t.maxArrays * t.arraySize →
       t.calcArraysToAlloc bufferId sizeNeeded = .ok t.maxArrays ∧
       t.retrySize bufferId sizeNeeded < t.firstSize bufferId sizeNeeded) ∧
    (t.maxArrays * t.arraySize < t.retrySize bufferId sizeNeeded →
       t.calcArraysToAlloc bufferId sizeNeeded =
         .error (t.retrySize bufferId sizeNeeded, t.maxArrays * t.arraySize)) := by
  simp only [EnumBufferType.calcArraysToAlloc, EnumBufferType.firstSize,
    EnumBufferType.retrySize, EnumBufferType.usedElems] at *
  rw [if_neg (Nat.not_le.mpr h)]
  constructor
  · intro h2
    rw [if_pos h2]
    exact ⟨rfl, Nat.lt_of_le_of_lt h2 h⟩
  · intro h2
    rw [if_neg (Nat.not_le.mpr h2)]

/-- C2 witness: `cexRetry`'s first size 3600000 exceeds the maximum
3500000, the retry size 3400000 fits, and the call succeeds. -/
theorem calcArraysToAlloc_capacity_retry_witness :
    cexRetry.maxArrays * cexRetry.arraySize < cexRetry.firstSize 1 0 ∧
    ((cexRetry.retrySize 1 0 ≤ cexRetry.maxArrays * cexRetry.arraySize →
       cexRetry.calcArraysToAlloc 1 0 = .ok cexRetry.maxArrays ∧
       cexRetry.retrySize 1 0 < cexRetry.firstSize 1 0) ∧
     (cexRetry.maxArrays * cexRetry.arraySize < cexRetry.retrySize 1 0 →
       cexRetry.calcArraysToAlloc 1 0 =
         .error (cexRetry.retrySize 1 0, cexRetry.maxArrays * cexRetry.arraySize))) :=
  ⟨by decide, calcArraysToAlloc_capacity_retry cexRetry 1 0 (by decide)⟩

/-- Helper: the fix-up loop succeeds iff the dictionary iterator stays
valid for the whole history vector, i.e. iff the tree has at least as many
keys as the history has entries. -/
theorem fixupLoop_isSome (hist : List Nat) :
    ∀ tree : List Nat, (fixupLoop hist tree).isSome ↔ hist.length ≤ tree.length := by
  induction hist with
  | nil => intro tree; simp [fixupLoop]
  | cons h hs ih =>
    intro tree
    cases tree with
    | nil => simp [fixupLoop]
    | cons k ks => simpa [fixupLoop] using ih ks

/-- Helper: on histories and trees of equal length the loop pairs the keys
with the historical counts in order. -/
theorem fixupLoop_zip (hist : List Nat) :
    ∀ tree : List Nat, hist.length = tree.length →
      fixupLoop hist tree = some (tree.zip hist) := by
  induction hist with
  | nil =>
    intro tree hlen
    simp at hlen
    simp [fixupLoop, List.length_eq_zero.mp hlen.symm]
  | cons h hs ih =>
    intro tree hlen
    cases tree with
    | nil => simp at hlen
    | cons k ks =>
      simp only [List.length_cons, Nat.succ.injEq] at hlen
      simp [fixupLoop, ih ks hlen, List.zip]

/-- C8: for a non-empty historical refcount vector, `fixupRefCounts`
passes its assertions (iterator valid at every history step, invalid
right after) iff the tree's in-order key sequence and the history vector
have exactly the same length; on success it applies the counts to the keys
in lockstep order and runs the cleanup pass, and any mismatch is a fatal
assertion failure (`none`), never silently ignored. -/
theorem fixupRefCounts_lockstep (hist tree : List Nat) (h : hist ≠ []) :
    ((fixupRefCounts hist tree).isSome ↔ tree.length = hist.length) ∧
    (tree.length = hist.length → fixupRefCounts hist tree = some (tree.zip hist, true)) := by
  have hne : hist.isEmpty = false := by
    cases hist with
    | nil => exact absurd rfl h
    | cons a t => rfl
  constructor
  · unfold fixupRefCounts
    rw [hne]
    simp only [Bool.false_eq_true, if_false]
    rcases hloop : fixupLoop hist tree with _ | ps
    · have := fixupLoop_isSome hist tree
      rw [hloop] at this
      simp at this ⊢
      omega
    · have hle : hist.length ≤ tree.length := by
        have := fixupLoop_isSome hist tree
        rw [hloop] at this
        simpa using this
      by_cases h2 : tree.length ≤ hist.length
      · simp [h2]
        omega
      · simp [h2]
        omega
  · intro hlen
    unfold fixupRefCounts
    rw [hne]
    simp only [Bool.false_eq_true, if_false]
    rw [fixupLoop_zip hist tree hlen.symm]
    simp [hlen.le]

/-- C8 witness: scenario D's history `[2, 0, 5]` against a three-key tree
fixes up the three refcounts and frees unused enums. -/
theorem fixupRefCounts_lockstep_witness :
    ([2, 0, 5] : List Nat) ≠ [] ∧
    (((fixupRefCounts [2, 0, 5] [10, 20, 30]).isSome ↔
        ([10, 20, 30] : List Nat).length = ([2, 0, 5] : List Nat).length) ∧
     (([10, 20, 30] : List Nat).length = ([2, 0, 5] : List Nat).length →
        fixupRefCounts [2, 0, 5] [10, 20, 30] =
          some ([(10, 2), (20, 0), (30, 5)], true))) :=
  ⟨by decide, by
    have := fixupRefCounts_lockstep [2, 0, 5] [10, 20, 30] (by decide)
    simpa using this⟩

/-- C10: with an empty historical refcount vector, `fixupRefCounts` is a
complete no-op for every tree: it returns at once, applies no refcount
update (empty pair list) and does not invoke the `freeUnusedEnums` cleanup
pass (`false`), even on a non-empty tree. -/
theorem fixupRefCounts_empty_hist (tree : List Nat) :
    fixupRefCounts [] tree = some ([], false) := rfl

/-- C9 counterexample: on a store with an active buffer (5 used, 1 dead)
and a held buffer (7 used, 2 dead), `getAddressSpaceUsage` reports 5 used
and 1 dead — the active buffer's counts — not the store-wide totals 12 and
3 the claim's "of the store" reading would require. -/
theorem getAddressSpaceUsage_counterexample :
    (dsCex.getAddressSpaceUsage 1024).1 ≠ dsCex.storeUsedElems ∧
    (dsCex.getAddressSpaceUsage 1024).2.1 ≠ dsCex.storeDeadElems := by decide

/-- C9 (amended): `getAddressSpaceUsage` returns the triple (used element
count of the active buffer, dead element count of the active buffer,
per-buffer offset capacity `RefType::offsetSize()`). -/
theorem getAddressSpaceUsage_active_buffer (s : DataStoreModel) (offsetSize : Nat) :
    s.getAddressSpaceUsage offsetSize =
      ((s.buffers.getD s.activeBufferId ⟨.free, 0, 0⟩).usedElems,
       (s.buffers.getD s.activeBufferId ⟨.free, 0, 0⟩).deadElems,
       offsetSize) := rfl

/-- Helper: the `getBufferIndex` scan finds nothing iff no buffer is in
the wanted state. -/
theorem getBufferIndexAux_eq_none (status : BufState) (l : List BufferHeader) :
    ∀ k, getBufferIndexAux status l k = none ↔ ∀ b ∈ l, b.state ≠ status := by
  induction l with
  | nil => intro k; simp [getBufferIndexAux]
  | cons b bs ih =>
    intro k
    by_cases hb : b.state = status
    · simp [getBufferIndexAux, hb]
    · simp [getBufferIndexAux, hb, ih (k + 1)]

/-- Helper: a found index lies within the scanned range. -/
theorem getBufferIndexAux_lt (status : BufState) (l : List BufferHeader) :
    ∀ k i, getBufferIndexAux status l k = some i → k ≤ i ∧ i < k + l.length := by
  induction l with
  | nil => intro k i h; simp [getBufferIndexAux] at h
  | cons b bs ih =>
    intro k i h
    simp only [getBufferIndexAux] at h
    by_cases hb : b.state = status
    · rw [if_pos hb] at h
      simp at h
      subst h
      simp
    · rw [if_neg hb] at h
      have := ih (k + 1) i h
      simp [List.length_cons]
      omega

/-- Helper: a found index comes from a buffer in the wanted state. -/
theorem getBufferIndexAux_some_mem (status : BufState) (l : List BufferHeader) :
    ∀ k i, getBufferIndexAux status l k = some i → ∃ b ∈ l, b.state = status := by
  induction l with
  | nil => intro k i h; simp [getBufferIndexAux] at h
  | cons b bs ih =>
    intro k i h
    simp only [getBufferIndexAux] at h
    by_cases hb : b.state = status
    · exact ⟨b, List.mem_cons_self b bs, hb⟩
    · rw [if_neg hb] at h
      obtain ⟨c, hc, hcs⟩ := ih (k + 1) i h
      exact ⟨c, List.mem_cons_of_mem b hc, hcs⟩

/-- Helper: `startCompact` marks exactly the active buffers as held. -/
theorem startCompactAux_snd (l : List BufferHeader) :
    ∀ k, (startCompactAux l k).2 =
      l.map (fun b => if b.state = .active then { b with state := .hold } else b) := by
  induction l with
  | nil => intro k; simp [startCompactAux]
  | cons b bs ih =>
    intro k
    by_cases hb : b.state = .active
    · simp [startCompactAux, hb, ih (k + 1)]
    · simp [startCompactAux, hb, ih (k + 1)]

/-- Helper: `startCompact` schedules exactly the ids of the active
buffers. -/
theorem startCompactAux_fst (l : List BufferHeader) :
    ∀ k, (startCompactAux l k).1 =
      ((List.enumFrom k l).filter (fun p => p.2.state == BufState.active)).map Prod.fst := by
  induction l with
  | nil => intro k; simp [startCompactAux]
  | cons b bs ih =>
    intro k
    by_cases hb : b.state = .active
    · have hb' : (b.state == BufState.active) = true := beq_iff_eq.mpr hb
      simp [startCompactAux, hb, hb', ih (k + 1), List.enumFrom, List.filter_cons]
    · have hb' : (b.state == BufState.active) = false := beq_eq_false_iff_ne.mpr hb
      simp [startCompactAux, hb, hb', ih (k + 1), List.enumFrom, List.filter_cons]

/-- C5: `preCompact(bytesNeeded)` returns false iff no buffer in the FREE
state exists; when it returns true it records `bytesNeeded` together with
the active buffer's dead-element count as the sizing of the replacement
buffer (via `setSizeNeededAndDead`) and starts the compaction epoch: every
ACTIVE buffer is marked HOLD and its id is recorded in `_toHoldBuffers`. -/
theorem preCompact_free_buffer (numBuffers : Nat) (es : EnumStoreState) (bytesNeeded : Nat)
    (h : es.store.buffers.length ≤ numBuffers) :
    ((es.preCompact numBuffers bytesNeeded).1 = false ↔
       ∀ b ∈ es.store.buffers, b.state ≠ .free) ∧
    ((es.preCompact numBuffers bytesNeeded).1 = true →
       (es.preCompact numBuffers bytesNeeded).2.typeSizeNeeded = bytesNeeded ∧
       (es.preCompact numBuffers bytesNeeded).2.typeDeadElems =
         es.store.activeBuffer.deadElems ∧
       (es.preCompact numBuffers bytesNeeded).2.store.buffers =
         es.store.buffers.map
           (fun b => if b.state = .active then { b with state := .hold } else b) ∧
       (es.preCompact numBuffers bytesNeeded).2.toHoldBuffers =
         ((es.store.buffers.enum.filter (fun p => p.2.state == BufState.active)).map
            Prod.fst)) := by
  rcases haux : getBufferIndexAux .free es.store.buffers 0 with _ | i
  · have hres : es.preCompact numBuffers bytesNeeded = (false, es) := by
      unfold EnumStoreState.preCompact getBufferIndex
      rw [haux]
      simp
    rw [hres]
    constructor
    · simpa using (getBufferIndexAux_eq_none .free es.store.buffers 0).mp haux
    · intro hcontra
      simp at hcontra
  · have hne : getBufferIndex numBuffers es.store .free ≠ numBuffers := by
      unfold getBufferIndex
      rw [haux]
      have := getBufferIndexAux_lt .free es.store.buffers 0 i haux
      simp
      omega
    have hres : es.preCompact numBuffers bytesNeeded =
        (true,
         { es with
           typeSizeNeeded := bytesNeeded
           typeDeadElems := es.store.activeBuffer.deadElems
           store := es.store.startCompact.2
           toHoldBuffers := es.store.startCompact.1 }) := by
      unfold EnumStoreState.preCompact
      rw [if_neg hne]
    rw [hres]
    constructor
    · simp only [Bool.true_eq_false, false_iff]
      intro hall
      obtain ⟨b, hb, hbs⟩ := getBufferIndexAux_some_mem .free es.store.buffers 0 i haux
      exact hall b hb hbs
    · intro _
      refine ⟨rfl, rfl, ?_, ?_⟩
      · exact startCompactAux_snd es.store.buffers 0
      · exact startCompactAux_fst es.store.buffers 0

/-- C5 witness: a facade with one active and one free buffer starts a
compaction sized at 99 bytes plus the active buffer's 2 dead elements. -/
theorem preCompact_free_buffer_witness :
    esCex.store.buffers.length ≤ 1024 ∧
    (((esCex.preCompact 1024 99).1 = false ↔
       ∀ b ∈ esCex.store.buffers, b.state ≠ .free) ∧
     ((esCex.preCompact 1024 99).1 = true →
       (esCex.preCompact 1024 99).2.typeSizeNeeded = 99 ∧
       (esCex.preCompact 1024 99).2.typeDeadElems = esCex.store.activeBuffer.deadElems ∧
       (esCex.preCompact 1024 99).2.store.buffers =
         esCex.store.buffers.map
           (fun b => if b.state = .active then { b with state := .hold } else b) ∧
       (esCex.preCompact 1024 99).2.toHoldBuffers =
         ((esCex.store.buffers.enum.filter (fun p => p.2.state == BufState.active)).map
            Prod.fst))) :=
  ⟨by decide, preCompact_free_buffer 1024 esCex 99 (by decide)⟩

/-- Helper: with a progressive, non-failing parser the first pass runs the
whole input and only accumulates the needed space: the space contribution
of each visited record is added to the running total, nothing else
happens. -/
theorem pass1_ok (P : RecordParser) (hprog : Progressive P) :
    ∀ fuel pos left space, left ≤ fuel →
      pass1 P fuel pos left space =
        some (.ok (space +
          ((records P fuel pos left).map (fun pl => (P.parseSize pl.1 pl.2).2)).sum)) := by
  intro fuel
  induction fuel with
  | zero =>
    intro pos left space hle
    have : left = 0 := Nat.le_zero.mp hle
    simp [pass1, records, this]
  | succ n ih =>
    intro pos left space hle
    by_cases hl : left = 0
    · simp [pass1, records, hl]
    · have hpos : 0 < left := Nat.pos_of_ne_zero hl
      have hp := hprog pos left hpos
      have hnn : ¬ (P.parseSize pos left).1 < 0 := by omega
      have hstep : 0 < (P.parseSize pos left).1.toNat := by omega
      have hle' : left - (P.parseSize pos left).1.toNat ≤ n := by omega
      simp only [pass1, records, if_neg hl, if_neg hnn]
      rw [ih _ _ _ hle']
      simp [Nat.add_assoc]

/-- Helper: under matching record sizes the second pass visits exactly the
record boundaries of the first pass and collects one index per record in
order. -/
theorem pass2_ok (P : RecordParser) (hprog : Progressive P) (hsame : SameSizes P) :
    ∀ fuel pos left, left ≤ fuel →
      pass2 P fuel pos left =
        some (.ok ((records P fuel pos left).map (fun pl => (P.parseIdx pl.1 pl.2).2))) := by
  intro fuel
  induction fuel with
  | zero =>
    intro pos left hle
    have : left = 0 := Nat.le_zero.mp hle
    simp [pass2, records, this]
  | succ n ih =>
    intro pos left hle
    by_cases hl : left = 0
    · simp [pass2, records, hl]
    · have hpos : 0 < left := Nat.pos_of_ne_zero hl
      have hp := hprog pos left hpos
      have hs := hsame pos left
      have hnn : ¬ (P.parseIdx pos left).1 < 0 := by omega
      have hnn' : ¬ (P.parseSize pos left).1 < 0 := by omega
      have hle' : left - (P.parseSize pos left).1.toNat ≤ n := by omega
      simp only [pass2, records, if_neg hl, if_neg hnn, if_neg hnn', hs]
      rw [ih _ _ hle']
      simp [Except.map]

/-- C6: with a progressive, non-failing per-record parser whose two
overloads consume identical sizes, `deserialize0` makes exactly two passes
over the same records: the first pass only accumulates the required buffer
size (`initAlign` plus the per-record contributions), the store is reset
to that size, and the second pass re-parses the same record boundaries to
produce the ordered index vector, from which `deserialize` assembles the
tree. -/
theorem deserialize_two_pass (P : RecordParser) (initAlign available : Nat)
    (tree : List Nat) (hprog : Progressive P) (hsame : SameSizes P) :
    deserialize0 P initAlign available =
      some (.ok
        (initAlign +
          ((records P available 0 available).map (fun pl => (P.parseSize pl.1 pl.2).2)).sum)
        ((records P available 0 available).map (fun pl => (P.parseIdx pl.1 pl.2).2))
        available) ∧
    deserialize P initAlign available tree =
      some ((available : Int),
        (records P available 0 available).map (fun pl => (P.parseIdx pl.1 pl.2).2)) := by
  have h1 := pass1_ok P hprog available 0 available initAlign le_rfl
  have h2 := pass2_ok P hprog hsame available 0 available le_rfl
  constructor
  · simp [deserialize0, h1, h2]
  · simp [deserialize, deserialize0, h1, h2, buildTree]

/-- C6 witness: the one-byte-per-record parser over 3 bytes yields reset
space 4+6 and index vector [0, 1, 2], which becomes the tree. -/
theorem deserialize_two_pass_witness :
    Progressive goodParser ∧ SameSizes goodParser ∧
    (deserialize0 goodParser 4 3 =
      some (.ok
        (4 + ((records goodParser 3 0 3).map
               (fun pl => (goodParser.parseSize pl.1 pl.2).2)).sum)
        ((records goodParser 3 0 3).map (fun pl => (goodParser.parseIdx pl.1 pl.2).2))
        3) ∧
     deserialize goodParser 4 3 [42] =
      some ((3 : Int),
        (records goodParser 3 0 3).map (fun pl => (goodParser.parseIdx pl.1 pl.2).2))) := by
  have hp : Progressive goodParser := by
    intro pos left hl
    refine ⟨by norm_num [goodParser], ?_⟩
    simp only [goodParser]
    omega
  have hs : SameSizes goodParser := fun _ _ => rfl
  exact ⟨hp, hs, deserialize_two_pass goodParser 4 3 [42] hp hs⟩

/-- C7: a negative per-record parse result makes the pass loops stop at
once with exactly that negative sentinel, and `deserialize` propagates the
sentinel of a failed `deserialize0` to its caller while leaving the tree
unbuilt. -/
theorem deserialize_error_sentinel (P : RecordParser)
    (fuel pos left space initAlign available : Nat) (tree : List Nat)
    (sz : Int) (rspace : Nat)
    (hL : 0 < left)
    (hneg1 : (P.parseSize pos left).1 < 0)
    (hneg2 : (P.parseIdx pos left).1 < 0)
    (herr : deserialize0 P initAlign available = some (.err1 sz) ∨
            deserialize0 P initAlign available = some (.err2 sz rspace)) :
    pass1 P (fuel + 1) pos left space = some (.error (P.parseSize pos left).1) ∧
    pass2 P (fuel + 1) pos left = some (.error (P.parseIdx pos left).1) ∧
    deserialize P initAlign available tree = some (sz, tree) := by
  refine ⟨?_, ?_, ?_⟩
  · simp [pass1, hL.ne', hneg1]
  · simp [pass2, hL.ne', hneg2]
  · rcases herr with h | h <;> simp [deserialize, h]

/-- C7 witness: the always-failing parser aborts both passes with its
sentinel -7 and `deserialize` returns (-7, unchanged tree). -/
theorem deserialize_error_sentinel_witness :
    0 < 3 ∧ (badParser.parseSize 0 3).1 < 0 ∧ (badParser.parseIdx 0 3).1 < 0 ∧
    (deserialize0 badParser 4 3 = some (.err1 (-7)) ∨
     deserialize0 badParser 4 3 = some (.err2 (-7) 0)) ∧
    (pass1 badParser (3 + 1) 0 3 5 = some (.error (badParser.parseSize 0 3).1) ∧
     pass2 badParser (3 + 1) 0 3 = some (.error (badParser.parseIdx 0 3).1) ∧
     deserialize badParser 4 3 [42] = some (-7, [42])) :=
  ⟨by decide, by decide, by decide, Or.inl (by decide),
   deserialize_error_sentinel badParser 3 0 3 5 4 3 [42] (-7) 0
     (by decide) (by decide) (by decide) (Or.inl (by decide))⟩

/-- Helper: the empty store is well formed. -/
theorem goodStore_empty : GoodStore UniqueStoreModel.emptyStore := by
  constructor
  · simp [UniqueStoreModel.emptyStore]
  · simp [UniqueStoreModel.emptyStore]

/-- Helper: under distinct values, an entry is determined by its value. -/
theorem entry_eq_of_value (l : List UEntry)
    (hpw : l.Pairwise (fun a b => a.ref ≠ b.ref ∧ a.value ≠ b.value))
    (e1 e2 : UEntry) (h1 : e1 ∈ l) (h2 : e2 ∈ l) (hv : e1.value = e2.value) :
    e1 = e2 := by
  by_contra hne
  have hsym : Symmetric (fun a b : UEntry => a.ref ≠ b.ref ∧ a.value ≠ b.value) :=
    fun a b hab => ⟨hab.1.symm, hab.2.symm⟩
  exact (List.Pairwise.forall hsym hpw h1 h2 hne).2 hv

/-- Helper: under distinct refs, an entry is determined by its ref. -/
theorem entry_eq_of_ref (l : List UEntry)
    (hpw : l.Pairwise (fun a b => a.ref ≠ b.ref ∧ a.value ≠ b.value))
    (e1 e2 : UEntry) (h1 : e1 ∈ l) (h2 : e2 ∈ l) (hv : e1.ref = e2.ref) :
    e1 = e2 := by
  by_contra hne
  have hsym : Symmetric (fun a b : UEntry => a.ref ≠ b.ref ∧ a.value ≠ b.value) :=
    fun a b hab => ⟨hab.1.symm, hab.2.symm⟩
  exact (List.Pairwise.forall hsym hpw h1 h2 hne).1 hv

/-- Helper: bumping a refcount commutes with the value lookup. -/
theorem findValue_bump (r : Nat) (l : List UEntry) (v : Nat) :
    findValue (bumpRefCount r l) v =
      (findValue l v).map
        (fun e => if e.ref = r then { e with refCount := e.refCount + 1 } else e) := by
  unfold findValue bumpRefCount
  rw [List.find?_map]
  have hp : ((fun e : UEntry => e.value == v) ∘
      (fun e => if e.ref = r then { e with refCount := e.refCount + 1 } else e)) =
      (fun e : UEntry => e.value == v) := by
    funext e
    by_cases h : e.ref = r <;> simp [h]
  rw [hp]

/-- Helper: decrementing a refcount commutes with the value lookup. -/
theorem findValue_decmap (r : Nat) (l : List UEntry) (v : Nat) :
    findValue (l.map (fun e => if e.ref = r then { e with refCount := e.refCount - 1 } else e)) v =
      (findValue l v).map
        (fun e => if e.ref = r then { e with refCount := e.refCount - 1 } else e) := by
  unfold findValue
  rw [List.find?_map]
  have hp : ((fun e : UEntry => e.value == v) ∘
      (fun e => if e.ref = r then { e with refCount := e.refCount - 1 } else e)) =
      (fun e : UEntry => e.value == v) := by
    funext e
    by_cases h : e.ref = r <;> simp [h]
  rw [hp]

/-- Helper: bumping the found entry raises the value refcount by one. -/
theorem rcOf_bump_found (l : List UEntry) (v : Nat) (e : UEntry)
    (he : findValue l v = some e) :
    rcOf (bumpRefCount e.ref l) v = rcOf l v + 1 := by
  simp [rcOf, findValue_bump, he]

/-- Helper: bumping an unrelated ref leaves a value's refcount alone. -/
theorem rcOf_bump_ne (l : List UEntry) (v r : Nat)
    (hne : ∀ e', findValue l v = some e' → e'.ref ≠ r) :
    rcOf (bumpRefCount r l) v = rcOf l v := by
  rcases hv : findValue l v with _ | e'
  · simp [rcOf, findValue_bump, hv]
  · simp [rcOf, findValue_bump, hv, if_neg (hne e' hv)]

/-- Helper: lookup over an appended list tries the left part first. -/
theorem findValue_append (l₁ l₂ : List UEntry) (v : Nat) :
    findValue (l₁ ++ l₂) v =
      match findValue l₁ v with
      | some e => some e
      | none => findValue l₂ v := by
  induction l₁ with
  | nil => simp [findValue]
  | cons a t ih =>
    unfold findValue at *
    by_cases h : (a.value == v)
    · simp [List.find?_cons, h]
    · simp only [List.cons_append, List.find?_cons, Bool.not_eq_true] at *
      rw [h]
      simpa using ih

/-- Helper: filtering cannot create an entry for an absent value. -/
theorem rcOf_filter_none (m : List UEntry) (v : Nat)
    (hv : findValue m v = none) :
    rcOf (m.filter (fun e => !(e.refCount == 0))) v = 0 := by
  have : findValue (m.filter (fun e => !(e.refCount == 0))) v = none := by
    unfold findValue at *
    apply List.find?_eq_none.mpr
    intro x hx
    exact List.find?_eq_none.mp hv x (List.mem_filter.mp hx).1
  simp [rcOf, this]

/-- Helper: dropping zero-refcount entries yields the found refcount when
it is non-zero and 0 when the found entry died. -/
theorem rcOf_filter_some (m : List UEntry) (v : Nat) (em : UEntry)
    (hpw : m.Pairwise (fun a b => a.value ≠ b.value))
    (hv : findValue m v = some em) :
    rcOf (m.filter (fun e => !(e.refCount == 0))) v =
      if em.refCount = 0 then 0 else em.refCount := by
  induction m with
  | nil => simp [findValue] at hv
  | cons b mt ih =>
    rw [List.pairwise_cons] at hpw
    obtain ⟨hbt, hpwt⟩ := hpw
    unfold findValue at hv
    rw [List.find?_cons] at hv
    by_cases hb : (b.value == v) = true
    · rw [hb] at hv
      simp only [Option.some.injEq] at hv
      subst hv
      have hbv : b.value = v := beq_iff_eq.mp hb
      by_cases h0 : b.refCount = 0
      · have hrest : rcOf (List.filter (fun e => !(e.refCount == 0)) mt) v = 0 := by
          apply rcOf_filter_none
          unfold findValue
          apply List.find?_eq_none.mpr
          intro x hx
          have hne : b.value ≠ x.value := hbt x hx
          simp only [beq_iff_eq]
          intro hxv
          exact hne (by rw [hbv, hxv])
        rw [List.filter_cons_of_neg (by simp [h0]), if_pos h0]
        exact hrest
      · rw [List.filter_cons_of_pos (by simp [h0]), if_neg h0]
        simp [rcOf, findValue, List.find?_cons, hb]
    · simp only [Bool.not_eq_true] at hb
      rw [hb] at hv
      by_cases hkeep : b.refCount = 0
      · rw [List.filter_cons_of_neg (by simp [hkeep])]
        exact ih hpwt hv
      · rw [List.filter_cons_of_pos (by simp [hkeep])]
        have hskip : rcOf (b :: List.filter (fun e => !(e.refCount == 0)) mt) v =
            rcOf (List.filter (fun e => !(e.refCount == 0)) mt) v := by
          simp [rcOf, findValue, List.find?_cons, hb]
        rw [hskip]
        exact ih hpwt hv

/-- Helper: `add` preserves store well-formedness. -/
theorem good_add (s : UniqueStoreModel) (v : Nat) (hg : GoodStore s) :
    GoodStore (s.add v).1 := by
  obtain ⟨hpw, hbound⟩ := hg
  rcases hf : findValue s.entries v with _ | e
  · have hs1 : (s.add v).1 = ⟨s.entries ++ [⟨s.nextRef, v, 1⟩], s.nextRef + 1⟩ := by
      unfold UniqueStoreModel.add
      rw [hf]
    rw [hs1]
    constructor
    · refine List.pairwise_append.mpr ⟨hpw, List.pairwise_singleton _ _, ?_⟩
      intro a ha b hb
      simp only [List.mem_singleton] at hb
      subst hb
      refine ⟨Nat.ne_of_lt (hbound a ha).2, ?_⟩
      intro hav
      have hnm := List.find?_eq_none.mp hf a ha
      simp only [beq_iff_eq] at hnm
      exact hnm hav
    · intro e' he'
      rcases List.mem_append.mp he' with h | h
      · exact ⟨(hbound e' h).1, Nat.lt_succ_of_lt (hbound e' h).2⟩
      · simp only [List.mem_singleton] at h
        subst h
        exact ⟨le_refl 1, Nat.lt_succ_self _⟩
  · have hs1 : (s.add v).1 = { s with entries := bumpRefCount e.ref s.entries } := by
      unfold UniqueStoreModel.add
      rw [hf]
    rw [hs1]
    constructor
    · unfold bumpRefCount
      apply List.pairwise_map.mpr
      refine hpw.imp ?_
      intro a b hab
      obtain ⟨habr, habv⟩ := hab
      constructor
      · show (if a.ref = e.ref then { a with refCount := a.refCount + 1 } else a).ref ≠
            (if b.ref = e.ref then { b with refCount := b.refCount + 1 } else b).ref
        by_cases h1 : a.ref = e.ref <;> by_cases h2 : b.ref = e.ref <;>
          simp [h1, h2] <;> omega
      · show (if a.ref = e.ref then { a with refCount := a.refCount + 1 } else a).value ≠
            (if b.ref = e.ref then { b with refCount := b.refCount + 1 } else b).value
        by_cases h1 : a.ref = e.ref <;> by_cases h2 : b.ref = e.ref <;>
          simp [h1, h2] <;> exact habv
    · intro e' he'
      unfold bumpRefCount at he'
      obtain ⟨b, hb, hfb⟩ := List.mem_map.mp he'
      subst hfb
      have hb1 := (hbound b hb).1
      have hb2 := (hbound b hb).2
      by_cases h1 : b.ref = e.ref <;> simp [h1] <;> omega

/-- Helper: `remove` preserves store well-formedness. -/
theorem good_remove (s : UniqueStoreModel) (r : Nat) (hg : GoodStore s) :
    GoodStore (s.remove r) := by
  obtain ⟨hpw, hbound⟩ := hg
  constructor
  · apply List.Pairwise.sublist (List.filter_sublist _)
    apply List.pairwise_map.mpr
    refine hpw.imp ?_
    intro a b hab
    obtain ⟨habr, habv⟩ := hab
    constructor
    · show (if a.ref = r then { a with refCount := a.refCount - 1 } else a).ref ≠
          (if b.ref = r then { b with refCount := b.refCount - 1 } else b).ref
      by_cases h1 : a.ref = r <;> by_cases h2 : b.ref = r <;> simp [h1, h2] <;> omega
    · show (if a.ref = r then { a with refCount := a.refCount - 1 } else a).value ≠
          (if b.ref = r then { b with refCount := b.refCount - 1 } else b).value
      by_cases h1 : a.ref = r <;> by_cases h2 : b.ref = r <;> simp [h1, h2] <;> exact habv
  · intro e' he'
    have hm := List.mem_filter.mp he'
    obtain ⟨b, hb, hfb⟩ := List.mem_map.mp hm.1
    have hrc : 1 ≤ e'.refCount := by
      have := hm.2
      simp only [Bool.not_eq_eq_eq_not, Bool.not_true, beq_eq_false_iff_ne] at this
      omega
    refine ⟨hrc, ?_⟩
    show e'.ref < (s.remove r).nextRef
    have hnx : (s.remove r).nextRef = s.nextRef := rfl
    have hb2 := (hbound b hb).2
    rw [hnx, ← hfb]
    by_cases h1 : b.ref = r <;> simp [h1] <;> omega

/-- Helper: `add w` raises w's refcount by one and no other. -/
theorem rcOf_add (s : UniqueStoreModel) (w v : Nat) (hg : GoodStore s) :
    rcOf (s.add w).1.entries v = rcOf s.entries v + (if w = v then 1 else 0) := by
  rcases hf : findValue s.entries w with _ | e
  · have hs1 : (s.add w).1 = ⟨s.entries ++ [⟨s.nextRef, w, 1⟩], s.nextRef + 1⟩ := by
      unfold UniqueStoreModel.add
      rw [hf]
    rw [hs1]
    by_cases hwv : w = v
    · subst hwv
      have hnew : findValue [(⟨s.nextRef, w, 1⟩ : UEntry)] w = some ⟨s.nextRef, w, 1⟩ := by
        simp [findValue]
      simp [rcOf, findValue_append, hf, hnew]
    · have hnew : findValue [(⟨s.nextRef, w, 1⟩ : UEntry)] v = none := by
        simp [findValue, List.find?_cons, beq_eq_false_iff_ne.mpr hwv]
      rcases hv : findValue s.entries v with _ | e'
      · simp [rcOf, findValue_append, hv, hnew, hwv]
      · simp [rcOf, findValue_append, hv, hwv]
  · have hs1 : (s.add w).1 = { s with entries := bumpRefCount e.ref s.entries } := by
      unfold UniqueStoreModel.add
      rw [hf]
    rw [hs1]
    by_cases hwv : w = v
    · subst hwv
      simp [rcOf_bump_found s.entries w e hf]
    · rw [rcOf_bump_ne]
      · simp [hwv]
      · intro e' he'
        have hmem1 : e' ∈ s.entries := by
          unfold findValue at he'
          exact List.mem_of_find?_eq_some he'
        have hmem2 : e ∈ s.entries := by
          unfold findValue at hf
          exact List.mem_of_find?_eq_some hf
        have hv1 : e'.value = v := by
          unfold findValue at he'
          have := List.find?_some he'
          simpa using this
        have hv2 : e.value = w := by
          unfold findValue at hf
          have := List.find?_some hf
          simpa using this
        intro hre
        have : e' = e := entry_eq_of_ref s.entries hg.1 e' e hmem1 hmem2 hre
        subst this
        exact hwv (by rw [← hv2, hv1])

/-- Helper: a valid `remove` lowers the removed value's refcount by one
and no other. -/
theorem rcOf_remove (s : UniqueStoreModel) (r : Nat) (eu : UEntry) (hg : GoodStore s)
    (hfind : s.entries.find? (fun e => e.ref == r) = some eu) (v : Nat) :
    rcOf (s.remove r).entries v + (if eu.value = v then 1 else 0) = rcOf s.entries v := by
  obtain ⟨hpw, hbound⟩ := hg
  have hpwv : (s.entries.map
      (fun e => if e.ref = r then { e with refCount := e.refCount - 1 } else e)).Pairwise
      (fun a b => a.value ≠ b.value) := by
    apply List.pairwise_map.mpr
    refine hpw.imp ?_
    intro a b hab
    show (if a.ref = r then { a with refCount := a.refCount - 1 } else a).value ≠
        (if b.ref = r then { b with refCount := b.refCount - 1 } else b).value
    by_cases h1 : a.ref = r <;> by_cases h2 : b.ref = r <;> simp [h1, h2] <;> exact hab.2
  have hmemu : eu ∈ s.entries := List.mem_of_find?_eq_some hfind
  have hru : eu.ref = r := by
    have := List.find?_some hfind
    simpa using this
  have hent : (s.remove r).entries =
      (s.entries.map
        (fun e => if e.ref = r then { e with refCount := e.refCount - 1 } else e)).filter
        (fun e => !(e.refCount == 0)) := rfl
  rw [hent]
  rcases hv : findValue s.entries v with _ | e'
  · -- no entry with value v at all
    have hmv : findValue (s.entries.map
        (fun e => if e.ref = r then { e with refCount := e.refCount - 1 } else e)) v = none := by
      rw [findValue_decmap, hv]
      rfl
    rw [rcOf_filter_none _ _ hmv]
    have hiu : eu.value ≠ v := by
      intro h
      have := List.find?_eq_none.mp hv eu hmemu
      simp [h] at this
    simp [rcOf, hv, hiu]
  · have hmv : findValue (s.entries.map
        (fun e => if e.ref = r then { e with refCount := e.refCount - 1 } else e)) v =
        some (if e'.ref = r then { e' with refCount := e'.refCount - 1 } else e') := by
      rw [findValue_decmap, hv]
      rfl
    have hmem' : e' ∈ s.entries := by
      unfold findValue at hv
      exact List.mem_of_find?_eq_some hv
    have hv' : e'.value = v := by
      unfold findValue at hv
      have := List.find?_some hv
      simpa using this
    have hrc' : 1 ≤ e'.refCount := (hbound e' hmem').1
    by_cases her : e'.ref = r
    · -- the removed entry is the value-v entry
      have heu : e' = eu := entry_eq_of_ref s.entries hpw e' eu hmem' hmemu (by rw [her, hru])
      have hiu : eu.value = v := by rw [← heu, hv']
      rw [rcOf_filter_some _ _ _ hpwv hmv]
      simp only [if_pos her]
      by_cases h1 : e'.refCount = 1
      · simp [rcOf, hv, hiu, h1]
      · have : ¬ (e'.refCount - 1 = 0) := by omega
        simp [rcOf, hv, hiu, this]
        omega
    · -- the removed entry has a different value
      have hiu : eu.value ≠ v := by
        intro h
        have : eu = e' := entry_eq_of_value s.entries hpw eu e' hmemu hmem' (by rw [h, hv'])
        rw [this] at hru
        exact her hru
      rw [rcOf_filter_some _ _ _ hpwv hmv]
      simp only [if_neg her]
      have : ¬ (e'.refCount = 0) := by omega
      simp [rcOf, hv, hiu, this]

/-- Helper: `add` on a present value bumps and reports `isNew = false`. -/
theorem add_eq_found (s : UniqueStoreModel) (v : Nat) (e : UEntry)
    (hf : findValue s.entries v = some e) :
    s.add v = ({ s with entries := bumpRefCount e.ref s.entries }, e.ref, false) := by
  unfold UniqueStoreModel.add
  rw [hf]

/-- Helper: `add` on an absent value appends a fresh refcount-1 entry. -/
theorem add_eq_new (s : UniqueStoreModel) (v : Nat)
    (hf : findValue s.entries v = none) :
    s.add v = (⟨s.entries ++ [⟨s.nextRef, v, 1⟩], s.nextRef + 1⟩, s.nextRef, true) := by
  unfold UniqueStoreModel.add
  rw [hf]

/-- Helper: two successive adds of one value return the same ref, the
second reporting `isNew = false`. -/
theorem add_twice (s : UniqueStoreModel) (v : Nat) :
    (s.add v).2.1 = ((s.add v).1.add v).2.1 ∧ ((s.add v).1.add v).2.2 = false := by
  rcases hf : findValue s.entries v with _ | e
  · have hfind : findValue (s.entries ++ [⟨s.nextRef, v, 1⟩]) v =
        some ⟨s.nextRef, v, 1⟩ := by
      rw [findValue_append, hf]
      simp [findValue]
    rw [add_eq_new s v hf]
    rw [add_eq_found _ v ⟨s.nextRef, v, 1⟩ hfind]
    exact ⟨rfl, rfl⟩
  · have hfind : findValue (bumpRefCount e.ref s.entries) v =
        some { e with refCount := e.refCount + 1 } := by
      rw [findValue_bump, hf]
      simp
    rw [add_eq_found s v e hf]
    rw [add_eq_found _ v { e with refCount := e.refCount + 1 } hfind]
    exact ⟨rfl, rfl⟩

/-- Helper: along any valid interleaving, the store stays well formed and
each refcount moves in lockstep with the add and remove counts. -/
theorem runOps_invariant (ops : List UOp) : ∀ s : UniqueStoreModel, GoodStore s →
    validOps s ops = true →
    GoodStore (runOps s ops).1 ∧
    ∀ v, rcOf (runOps s ops).1.entries v + ((runOps s ops).2.count v) =
         rcOf s.entries v + countAdds v ops := by
  induction ops with
  | nil =>
    intro s hg _
    refine ⟨hg, fun v => ?_⟩
    simp [runOps, countAdds]
  | cons op ops ih =>
    intro s hg hval
    cases op with
    | add w =>
      have hval' : validOps (s.add w).1 ops = true := by
        simpa [validOps] using hval
      obtain ⟨hg', heq⟩ := ih (s.add w).1 (good_add s w hg) hval'
      have hrun : runOps s (.add w :: ops) = runOps (s.add w).1 ops := by
        simp [runOps]
      rw [hrun]
      refine ⟨hg', fun v => ?_⟩
      rw [heq v, rcOf_add s w v hg]
      simp only [countAdds]
      by_cases hwv : w = v
      · simp [hwv]
        try omega
      · simp [hwv]
        try omega
    | remove r =>
      have hval2 := hval
      simp only [validOps, Bool.and_eq_true] at hval2
      obtain ⟨hsome, hval'⟩ := hval2
      rw [Option.isSome_iff_exists] at hsome
      obtain ⟨u, hu⟩ := hsome
      have hex : ∃ eu, s.entries.find? (fun e => e.ref == r) = some eu ∧ eu.value = u := by
        unfold UniqueStoreModel.valueOfRef at hu
        rcases hfind : s.entries.find? (fun e => e.ref == r) with _ | eu
        · rw [hfind] at hu
          simp at hu
        · rw [hfind] at hu
          simp at hu
          exact ⟨eu, hfind, hu⟩
      obtain ⟨eu, hfind, heuv⟩ := hex
      obtain ⟨hg', heq⟩ := ih (s.remove r) (good_remove s r hg) hval'
      have hrun : runOps s (.remove r :: ops) =
          ((runOps (s.remove r) ops).1, u :: (runOps (s.remove r) ops).2) := by
        simp [runOps, hu]
      rw [hrun]
      refine ⟨hg', fun v => ?_⟩
      have hrc := rcOf_remove s r eu hg hfind v
      have hcount : (u :: (runOps (s.remove r) ops).2).count v =
          (runOps (s.remove r) ops).2.count v + (if u = v then 1 else 0) := by
        rw [List.count_cons]
        simp [beq_iff_eq]
      have hmain := heq v
      simp only [countAdds]
      rw [hcount] at *
      rw [heuv] at hrc
      by_cases huv : u = v
      · simp only [huv] at hrc ⊢
        simp at hrc ⊢
        omega
      · simp only [if_neg huv] at hrc ⊢
        omega

/-- C4: from any state reachable by a valid interleaving of adds and
removes, adding equal values twice returns the same EntryRef (the second
add reports `isNew = false` and raises the refcount by one more; a first
add of an absent value reports `isNew = true` with refcount 1), and the
refcount of every value equals its number of adds minus its number of
removes. -/
theorem uniqueStore_dedup_refcount (ops : List UOp) (v : Nat)
    (hval : validOps UniqueStoreModel.emptyStore ops = true) :
    ((runOps UniqueStoreModel.emptyStore ops).1.add v).2.1 =
      (((runOps UniqueStoreModel.emptyStore ops).1.add v).1.add v).2.1 ∧
    (((runOps UniqueStoreModel.emptyStore ops).1.add v).1.add v).2.2 = false ∧
    (findValue (runOps UniqueStoreModel.emptyStore ops).1.entries v = none →
       ((runOps UniqueStoreModel.emptyStore ops).1.add v).2.2 = true ∧
       rcOf ((runOps UniqueStoreModel.emptyStore ops).1.add v).1.entries v = 1) ∧
    rcOf ((((runOps UniqueStoreModel.emptyStore ops).1.add v).1.add v).1).entries v =
      rcOf (runOps UniqueStoreModel.emptyStore ops).1.entries v + 2 ∧
    rcOf (runOps UniqueStoreModel.emptyStore ops).1.entries v +
      ((runOps UniqueStoreModel.emptyStore ops).2.count v) = countAdds v ops ∧
    rcOf (runOps UniqueStoreModel.emptyStore ops).1.entries v =
      countAdds v ops - ((runOps UniqueStoreModel.emptyStore ops).2.count v) := by
  obtain ⟨hgood, heq⟩ := runOps_invariant ops UniqueStoreModel.emptyStore goodStore_empty hval
  have hzero : rcOf UniqueStoreModel.emptyStore.entries v = 0 := by
    simp [rcOf, findValue, UniqueStoreModel.emptyStore]
  have htrace : rcOf (runOps UniqueStoreModel.emptyStore ops).1.entries v +
      ((runOps UniqueStoreModel.emptyStore ops).2.count v) = countAdds v ops := by
    have := heq v
    omega
  refine ⟨(add_twice _ v).1, (add_twice _ v).2, ?_, ?_, htrace, by omega⟩
  · intro hf
    constructor
    · rw [add_eq_new _ v hf]
    · have h1 := rcOf_add (runOps UniqueStoreModel.emptyStore ops).1 v v hgood
      have h0 : rcOf (runOps UniqueStoreModel.emptyStore ops).1.entries v = 0 := by
        simp [rcOf, hf]
      rw [h1, h0]
      simp
  · have h1 := rcOf_add (runOps UniqueStoreModel.emptyStore ops).1 v v hgood
    have h2 := rcOf_add ((runOps UniqueStoreModel.emptyStore ops).1.add v).1 v v
      (good_add _ v hgood)
    rw [h2, h1]
    simp

/-- C4 witness: scenario A's trace `add 5; add 5; remove ref0`. -/
theorem uniqueStore_dedup_refcount_witness :
    validOps UniqueStoreModel.emptyStore opsW = true ∧
    (((runOps UniqueStoreModel.emptyStore opsW).1.add 5).2.1 =
       (((runOps UniqueStoreModel.emptyStore opsW).1.add 5).1.add 5).2.1 ∧
     (((runOps UniqueStoreModel.emptyStore opsW).1.add 5).1.add 5).2.2 = false ∧
     (findValue (runOps UniqueStoreModel.emptyStore opsW).1.entries 5 = none →
        ((runOps UniqueStoreModel.emptyStore opsW).1.add 5).2.2 = true ∧
        rcOf ((runOps UniqueStoreModel.emptyStore opsW).1.add 5).1.entries 5 = 1) ∧
     rcOf ((((runOps UniqueStoreModel.emptyStore opsW).1.add 5).1.add 5).1).entries 5 =
       rcOf (runOps UniqueStoreModel.emptyStore opsW).1.entries 5 + 2 ∧
     rcOf (runOps UniqueStoreModel.emptyStore opsW).1.entries 5 +
       ((runOps UniqueStoreModel.emptyStore opsW).2.count 5) = countAdds 5 opsW ∧
     rcOf (runOps UniqueStoreModel.emptyStore opsW).1.entries 5 =
       countAdds 5 opsW - ((runOps UniqueStoreModel.emptyStore opsW).2.count 5)) :=
  ⟨by decide, uniqueStore_dedup_refcount opsW 5 (by decide)⟩

end EnumStore
